import Mathlib

/-!
Verification development for the Form C photo uploader (`app.py`).

The Python source is shallowly embedded below:
* strings are modelled as `List Char`, with Python slices translated to
  `List.take` / `List.drop`;
* `compress_image` is modelled as a fuel-indexed loop over an explicit
  state, parameterised by an abstract encoder `Enc` that gives the byte
  size a JPEG save produces for a raster of given width, height and
  quality (the JPEG codec itself is an external library);
* the Python float `scale_factor` always holds `0.8 ^ rounds`; it is
  modelled exactly, with Python `int()` truncation on the nonnegative
  values arising here rendered as the floor (`pyInt`, `scaledDim`);
* ghost fields (`rounds`, `rtrace`, `downs`) record the observable
  history of the loop without changing its control flow.
-/

namespace FormC

/-! ## String utilities (`sanitize_filename`, `encrypt_pp_number`, `decrypt_pp_number`) -/

/-- Character class kept by `sanitize_filename`: the regular expression
`[^A-Za-z0-9_-]` deletes everything except these characters. -/
def isAllowedChar (c : Char) : Bool :=
  (('A' ≤ c && c ≤ 'Z') || ('a' ≤ c && c ≤ 'z') || ('0' ≤ c && c ≤ '9')
    || c = '_' || c = '-')

/-- The `name.replace(" ", "_")` step of `sanitize_filename`. -/
def spaceToUnderscore (c : Char) : Char :=
  if c = ' ' then '_' else c

/-- `sanitize_filename` from `app.py`:
`re.sub(r"[^A-Za-z0-9_-]", "", name.replace(" ", "_"))` — spaces are
first replaced by underscores, then every character outside
`[A-Za-z0-9_-]` is deleted. -/
def sanitize_filename (name : List Char) : List Char :=
  (name.map spaceToUnderscore).filter isAllowedChar

/-- The filename derivation in the tab-1 upload handler:
`final_name = f"{safe_name}.jpg"` with `safe_name = sanitize_filename(name)`. -/
def tab1_filename (name : List Char) : List Char :=
  sanitize_filename name ++ ['.', 'j', 'p', 'g']

/-- `encrypt_pp_number` from `app.py`: for strings of length ≥ 4, swap the
first two and last two characters around the unchanged middle
(`last_two + middle + first_two`); shorter strings are returned as is. -/
def encrypt_pp_number (original_pp : List Char) : List Char :=
  if original_pp.length < 4 then original_pp
  else
    (original_pp.drop (original_pp.length - 2))
      ++ ((original_pp.take (original_pp.length - 2)).drop 2)
      ++ (original_pp.take 2)

/-- `decrypt_pp_number` from `app.py`: reads the first two characters of the
encrypted string as the original last two and the last two as the original
first two, and rebuilds `first_two + middle + last_two`; strings of length
< 4 are returned as is. -/
def decrypt_pp_number (encrypted_pp : List Char) : List Char :=
  if encrypted_pp.length < 4 then encrypted_pp
  else
    (encrypted_pp.drop (encrypted_pp.length - 2))
      ++ ((encrypted_pp.take (encrypted_pp.length - 2)).drop 2)
      ++ (encrypted_pp.take 2)

/-! ## The size-bounded image compressor (`compress_image`)

The JPEG codec is external to the repository, so the embedding is
parameterised by an abstract encoder giving the byte size that
`image.save(temp_path, "JPEG", optimize=True, quality=q)` produces for a
raster of the given width and height.  The loop state carries exactly the
Python locals (`quality`, `new_width`, `new_height`, the current size of
`temp.jpg`, and the number of `scale_factor *= 0.8` updates) plus ghost
history fields. -/

/-- Abstract encoder model: width, height and quality of the raster being
saved, to the byte size of the resulting JPEG file. -/
abbrev Enc := ℕ → ℕ → ℤ → ℕ

/-- Resampling filters of the imaging library; the source always passes
`Image.LANCZOS`. -/
inductive ResampleFilter where
  | lanczos
  | nearest
  | bilinear
  | bicubic
  deriving DecidableEq

/-- One encode attempt (one `save` call): the quality passed to the
encoder, the width and height of the raster actually saved, and the
number of downscale rounds performed so far (which determines the value
of the `scale_factor` variable, see `Attempt.sf`). -/
structure Attempt where
  q : ℤ
  w : ℕ
  h : ℕ
  r : ℕ
  deriving DecidableEq

/-- The value of the `scale_factor` float variable at an attempt: the
source initialises it to `1.0` and executes `scale_factor *= 0.8` once
per downscale round, so after `r` rounds it holds `0.8 ^ r` (modelled as
the exact rational `(4/5) ^ r`). -/
def Attempt.sf (a : Attempt) : ℚ := (4 / 5) ^ a.r

/-- Ghost record of one completed downscale round: its 1-based index, the
target dimensions handed to `resize`, the filter used, and the value the
`quality` variable is reset to at the end of the round. -/
structure Down where
  n : ℕ
  nw : ℕ
  nh : ℕ
  filt : ResampleFilter
  qAfter : ℤ
  deriving DecidableEq

/-- The loop state of `compress_image`.  `cursize` is
`os.path.getsize(temp_path)`; `rounds` counts the executed
`scale_factor *= 0.8` updates (so the `scale_factor` variable holds
`0.8 ^ rounds`, see `St.scale_factor`); `rtrace` (attempts, most recent
first) and `downs` (completed downscale rounds, most recent first) are
ghost fields recording the observable history. -/
structure St where
  quality : ℤ
  new_width : ℕ
  new_height : ℕ
  cursize : ℕ
  rounds : ℕ
  rtrace : List Attempt
  downs : List Down
  deriving DecidableEq

/-- The value of the `scale_factor` variable in a state. -/
def St.scale_factor (st : St) : ℚ := (4 / 5) ^ st.rounds

/-- Python `int()` applied to the nonnegative rationals arising in the
loop (truncation toward zero, which is the floor on nonnegatives). -/
def pyInt (q : ℚ) : ℕ := (⌊q⌋).toNat

/-- `int(dim * scale_factor)` after `r` downscale rounds, computed in ℕ:
`dim * 0.8 ^ r` truncated is exactly `dim * 4 ^ r / 5 ^ r` in natural
division (`scaledDim_eq_floor` below proves the two readings agree). -/
def scaledDim (dim r : ℕ) : ℕ := dim * 4 ^ r / 5 ^ r

/-- `quality -= 5` followed by the full-resolution
`image.save(temp_path, "JPEG", optimize=True, quality=quality)`; note the
source saves the original `image` object, so this save is always at the
original dimensions `w × h`. -/
def stepQuality (enc : Enc) (w h : ℕ) (st : St) : St :=
  { st with
    quality := st.quality - 5
    cursize := enc w h (st.quality - 5)
    rtrace := ⟨st.quality - 5, w, h, st.rounds⟩ :: st.rtrace }

/-- `new_width = int(width * scale_factor)` after `scale_factor *= 0.8`:
the width is always computed from the ORIGINAL width. -/
def nextW (w : ℕ) (st : St) : ℕ := scaledDim w (st.rounds + 1)

/-- `new_height = int(height * scale_factor)` after `scale_factor *= 0.8`. -/
def nextH (h : ℕ) (st : St) : ℕ := scaledDim h (st.rounds + 1)

/-- The downscale round: `scale_factor *= 0.8`, compute the new target
dimensions from the original dimensions, resample the original image with
`Image.LANCZOS`, save it at the current (just decremented) quality, and
reset `quality = 30`. -/
def stepDownscale (enc : Enc) (w h : ℕ) (st : St) : St :=
  { st with
    new_width := nextW w st
    new_height := nextH h st
    cursize := enc (nextW w st) (nextH h st) st.quality
    rounds := st.rounds + 1
    rtrace := ⟨st.quality, nextW w st, nextH h st, st.rounds + 1⟩ :: st.rtrace
    downs := ⟨st.rounds + 1, nextW w st, nextH h st, .lanczos, 30⟩ :: st.downs
    quality := 30 }

/-- The state at the moment the resize/encode of a zero-size raster fails:
`scale_factor`, `new_width` and `new_height` have already been assigned
(the exception is raised by `resize`/`save`, after those statements).
The failure itself is modelled from the spec: the imaging library is not
part of the repository, and the spec (§4.1, §7) states that encoding a
zero-size raster after downscaling fails with `EncodeError`. -/
def crashSt (w h : ℕ) (st : St) : St :=
  { st with
    new_width := nextW w st
    new_height := nextH h st
    rounds := st.rounds + 1 }

/-- Result of running the compression loop: normal exit of the `while`
(the temp file is returned), an encoder failure on a zero-size raster, or
fuel exhaustion (the loop would keep running past the given bound). -/
inductive Outcome where
  | ok (st : St)
  | encodeError (st : St)
  | fuelOut (st : St)
  deriving DecidableEq

def Outcome.stOf : Outcome → St
  | .ok st => st
  | .encodeError st => st
  | .fuelOut st => st

def Outcome.isOk : Outcome → Bool
  | .ok _ => true
  | _ => false

def Outcome.isEncodeError : Outcome → Bool
  | .encodeError _ => true
  | _ => false

/-- The `while os.path.getsize(temp_path) >= 50_000 and quality >= 10:`
loop of `compress_image`, fuel-indexed. -/
def loop (enc : Enc) (w h : ℕ) : ℕ → St → Outcome
  | 0, st => .fuelOut st
  | fuel + 1, st =>
    if 50000 ≤ st.cursize ∧ 10 ≤ st.quality then
      if 50000 ≤ (stepQuality enc w h st).cursize ∧ (stepQuality enc w h st).quality ≤ 10 then
        if nextW w (stepQuality enc w h st) = 0 ∨ nextH h (stepQuality enc w h st) = 0 then
          .encodeError (crashSt w h (stepQuality enc w h st))
        else
          loop enc w h fuel (stepDownscale enc w h (stepQuality enc w h st))
      else
        loop enc w h fuel (stepQuality enc w h st)
    else .ok st

/-- The state of `compress_image` just after the initial full-resolution
`image.save(temp_path, "JPEG", optimize=True, quality=85)`. -/
def initSt (enc : Enc) (w h : ℕ) : St :=
  { quality := 85
    new_width := w
    new_height := h
    cursize := enc w h 85
    rounds := 0
    rtrace := [⟨85, w, h, 0⟩]
    downs := [] }

/-- `compress_image` from `app.py`, for an image of original dimensions
`w × h` under the abstract encoder `enc`. -/
def compress_image (enc : Enc) (w h fuel : ℕ) : Outcome :=
  loop enc w h fuel (initSt enc w h)

/-- The attempts of a state in chronological order. -/
def St.attempts (st : St) : List Attempt := st.rtrace.reverse

/-- What the tab-1 upload handler does with the compressed file. -/
inductive UploadAction where
  | uploaded
  | errorShown
  deriving DecidableEq

/-- The tab-1 upload handler's branch on the compressed file size:
`if os.path.getsize(compressed) <= 50_000:` upload to the drive and show
success, `else:` show the error message and make no upload call. -/
def tab1_upload_decision (size : ℕ) : UploadAction :=
  if size ≤ 50000 then .uploaded else .errorShown

/-! ## Concrete encoders and inputs used as test vectors -/

/-- Encoder whose output is always tiny. -/
def enc0 : Enc := fun _ _ _ => 1000

/-- Encoder whose first (quality-85) output sits exactly on the 50,000-byte
ceiling and whose later outputs are small. -/
def encA : Enc := fun _ _ q => if q = 85 then 50000 else 10000

/-- Encoder whose output is always 70,000 bytes: the ceiling can never be
met (the spec's "encoder overhead alone exceeds ceiling" regime). -/
def encBig : Enc := fun _ _ _ => 70000

/-- Encoder whose output is always 60,000 bytes. -/
def encBig1 : Enc := fun _ _ _ => 60000

/-- Encoder that goes under the ceiling only once the saved raster is at
most 64 pixels wide, forcing two downscale rounds on a 100×100 input. -/
def encC : Enc := fun w _ _ => if w ≤ 64 then 1000 else 60000

/-- Sample free-text person name with a space and a disallowed character. -/
def nameEx : List Char := ['J', 'o', ' ', 'D', 'o', 'e', '!']

/-- The first downscale round of the `encC` run on a 100×100 raster. -/
def dEx : Down := ⟨1, 80, 80, ResampleFilter.lanczos, 30⟩

/-! ## Specification predicates -/

/-- Dimension/filter/reset-history invariant of the loop: the working
dimensions are always the original dimensions scaled by the compounded
shrink factor, and every completed downscale round used Lanczos, reset the
quality to 30, and computed its target from the original dimensions. -/
def ScaleInv (w h : ℕ) (st : St) : Prop :=
  st.new_width = scaledDim w st.rounds ∧
  st.new_height = scaledDim h st.rounds ∧
  ∀ d ∈ st.downs, d.filt = ResampleFilter.lanczos ∧ d.qAfter = 30 ∧
    d.nw = scaledDim w d.n ∧ d.nh = scaledDim h d.n

/-- The relation claimed by the spec between consecutive attempts: both
the quality and the scale factor are non-increasing. -/
def AttemptMonotone (a b : Attempt) : Prop :=
  b.q ≤ a.q ∧ b.sf ≤ a.sf

/-- The transition that actually holds between consecutive attempts: the
scale-factor variable never grows, and the quality either does not grow
or is the quality-25 encode that immediately follows a downscale round
(the round resets `quality = 30` and the next pass decrements it to 25). -/
def AttemptStep (a b : Attempt) : Prop :=
  b.sf ≤ a.sf ∧ (b.q ≤ a.q ∨ b.q = 25)

instance decAttemptMonotone : DecidableRel AttemptMonotone := fun a b =>
  if hd : b.q ≤ a.q ∧ a.r ≤ b.r then
    Decidable.isTrue
      ⟨hd.1, show Attempt.sf b ≤ Attempt.sf a from
        pow_le_pow_of_le_one (by norm_num) (by norm_num) hd.2⟩
  else
    Decidable.isFalse (fun hc => hd ⟨hc.1, by
      by_contra hlt
      push_neg at hlt
      have hp : Attempt.sf a < Attempt.sf b :=
        pow_lt_pow_right_of_lt_one₀ (by norm_num : (0 : ℚ) < 4 / 5) (by norm_num) hlt
      exact absurd (lt_of_le_of_lt hc.2 hp) (lt_irrefl _)⟩)

/-- History invariant carrying what is needed to extend the attempt chain:
the trace is a reversed `AttemptStep` chain, its most recent attempt was
made at a scale exponent at most the current one, and the current quality
either does not exceed that attempt's quality or is the 30 set by a
downscale round whose save ran at quality ≤ 10. -/
def TraceInv (st : St) : Prop :=
  ∃ last tail, st.rtrace = last :: tail ∧
    List.Chain' (flip AttemptStep) st.rtrace ∧
    last.r ≤ st.rounds ∧
    (st.quality ≤ last.q ∨ (st.quality = 30 ∧ last.q ≤ 10))

/-! ## Helper lemmas: the identifier swap transform -/

theorem pp_swap_extensional (s : List Char) :
    encrypt_pp_number s = decrypt_pp_number s := rfl

theorem pp_swap_length (s : List Char) :
    (encrypt_pp_number s).length = s.length := by
  unfold encrypt_pp_number
  split
  · rfl
  · simp only [List.length_append, List.length_drop, List.length_take]
    omega

theorem pp_roundtrip (s : List Char) :
    decrypt_pp_number (encrypt_pp_number s) = s := by
  by_cases hlen : s.length < 4
  · unfold encrypt_pp_number decrypt_pp_number
    simp [hlen]
  · push_neg at hlen
    have hflen : (encrypt_pp_number s).length = s.length := pp_swap_length s
    have h4 : ¬ (encrypt_pp_number s).length < 4 := by omega
    rw [decrypt_pp_number, if_neg h4, hflen]
    rw [encrypt_pp_number, if_neg (by omega)]
    set n := s.length with hn
    have hA : (s.drop (n - 2)).length = 2 := by
      simp [List.length_drop]; omega
    have hB : ((s.take (n - 2)).drop 2).length = n - 4 := by
      simp [List.length_drop, List.length_take]; omega
    set A := s.drop (n - 2) with hAdef
    set B := (s.take (n - 2)).drop 2 with hBdef
    set C := s.take 2 with hCdef
    have hlenAB : (A ++ B).length = n - 2 := by
      simp [List.length_append, hA, hB]; omega
    have hdrop : (A ++ B ++ C).drop (n - 2) = C := by
      rw [← hlenAB, List.drop_left]
    have htake : (A ++ B ++ C).take (n - 2) = A ++ B := by
      rw [← hlenAB, List.take_left]
    have htake2 : (A ++ B ++ C).take 2 = A := by
      rw [List.append_assoc, ← hA, List.take_left]
    rw [hdrop, htake, htake2]
    have hmid : (A ++ B).drop 2 = B := by
      rw [← hA, List.drop_left]
    rw [hmid]
    rw [hCdef, hBdef, hAdef]
    have hCB : s.take 2 ++ (s.take (n - 2)).drop 2 = s.take (n - 2) := by
      have : s.take 2 = (s.take (n - 2)).take 2 := by
        rw [List.take_take]
        congr 1
        omega
      rw [this, List.take_append_drop]
    rw [hCB, List.take_append_drop]

theorem pp_involution (s : List Char) :
    encrypt_pp_number (encrypt_pp_number s) = s := by
  rw [pp_swap_extensional (encrypt_pp_number s)]
  exact pp_roundtrip s

theorem pp_short_id (s : List Char) (h : s.length < 4) :
    encrypt_pp_number s = s ∧ decrypt_pp_number s = s := by
  refine ⟨?_, ?_⟩ <;> simp [encrypt_pp_number, decrypt_pp_number, h]

/-! ## Helper lemmas: sanitize_filename -/

theorem sanitize_allowed (name : List Char) :
    ∀ c ∈ sanitize_filename name, isAllowedChar c = true := by
  intro c hc
  exact (List.mem_filter.mp hc).2

theorem sanitize_no_space (name : List Char) : ' ' ∉ sanitize_filename name := by
  intro hmem
  have h := (List.mem_filter.mp hmem).2
  exact absurd h (by decide)

theorem sanitize_underscore_count (name : List Char) :
    (sanitize_filename name).count '_' = name.count ' ' + name.count '_' := by
  induction name with
  | nil => rfl
  | cons c cs ih =>
    simp only [sanitize_filename] at ih
    by_cases hsp : c = ' '
    · subst hsp
      have hmap : List.map spaceToUnderscore (' ' :: cs)
          = '_' :: List.map spaceToUnderscore cs := rfl
      have hfil : List.filter isAllowedChar ('_' :: List.map spaceToUnderscore cs)
          = '_' :: List.filter isAllowedChar (List.map spaceToUnderscore cs) := rfl
      rw [sanitize_filename, hmap, hfil, List.count_cons_self, List.count_cons_self,
        List.count_cons_of_ne (by decide : ('_' : Char) ≠ ' '), ih]
      omega
    · by_cases hund : c = '_'
      · subst hund
        have hmap : List.map spaceToUnderscore ('_' :: cs)
            = '_' :: List.map spaceToUnderscore cs := rfl
        have hfil : List.filter isAllowedChar ('_' :: List.map spaceToUnderscore cs)
            = '_' :: List.filter isAllowedChar (List.map spaceToUnderscore cs) := rfl
        rw [sanitize_filename, hmap, hfil, List.count_cons_self,
          List.count_cons_of_ne (by decide : (' ' : Char) ≠ '_'), List.count_cons_self, ih]
        omega
      · have hs2u : spaceToUnderscore c = c := by
          rw [spaceToUnderscore, if_neg hsp]
        have hmap : List.map spaceToUnderscore (c :: cs)
            = c :: List.map spaceToUnderscore cs := by
          rw [List.map_cons, hs2u]
        by_cases hal : isAllowedChar c = true
        · have hfil : List.filter isAllowedChar (c :: List.map spaceToUnderscore cs)
              = c :: List.filter isAllowedChar (List.map spaceToUnderscore cs) := by
            rw [List.filter_cons, if_pos hal]
          rw [sanitize_filename, hmap, hfil, List.count_cons_of_ne (Ne.symm hund),
            List.count_cons_of_ne (Ne.symm hsp), List.count_cons_of_ne (Ne.symm hund), ih]
        · have hfil : List.filter isAllowedChar (c :: List.map spaceToUnderscore cs)
              = List.filter isAllowedChar (List.map spaceToUnderscore cs) := by
            rw [List.filter_cons, if_neg hal]
          rw [sanitize_filename, hmap, hfil, List.count_cons_of_ne (Ne.symm hsp),
            List.count_cons_of_ne (Ne.symm hund), ih]

/-! ## Helper lemmas: the compression loop -/

/-- Natural division is the floor of exact rational arithmetic: the
`int(dim * scale_factor)` of the source, with `scale_factor = 0.8 ^ r`,
is `scaledDim dim r`. -/
theorem scaledDim_eq_floor (dim r : ℕ) :
    scaledDim dim r = pyInt ((dim : ℚ) * (4 / 5) ^ r) := by
  have hcast : (dim : ℚ) * (4 / 5) ^ r = ((dim * 4 ^ r : ℕ) : ℚ) / ((5 ^ r : ℕ) : ℚ) := by
    push_cast
    rw [div_pow, mul_div_assoc]
  rw [pyInt, hcast, Int.floor_toNat, Nat.floor_div_eq_div]
  rfl

/-- The loop can only exit normally with the last save under the ceiling:
the guard disjunct `quality >= 10` alone never causes the exit, because
whenever the quality sinks to 10 or below while the file is still too
large, a downscale round fires and resets the quality to 30. -/
theorem loop_ok_exit_size (enc : Enc) (w h : ℕ) :
    ∀ (fuel : ℕ) (st st' : St), 10 ≤ st.quality ∨ st.cursize < 50000 →
      loop enc w h fuel st = Outcome.ok st' → st'.cursize < 50000 := by
  intro fuel
  induction fuel with
  | zero =>
    intro st st' _ heq
    exact absurd heq (by simp [loop])
  | succ fuel ih =>
    intro st st' hinv heq
    simp only [loop] at heq
    split at heq
    · split at heq
      · rename_i hin
        split at heq
        · exact absurd heq (by simp)
        · exact ih _ _ (Or.inl (by norm_num [stepDownscale])) heq
      · rename_i hin
        refine ih _ _ ?_ heq
        rcases le_or_lt 50000 (stepQuality enc w h st).cursize with hc | hc
        · left
          by_contra hlt
          exact hin ⟨hc, by omega⟩
        · exact Or.inr hc
    · rename_i hg
      injection heq with heq'
      subst heq'
      rcases hinv with h10 | hsz
      · by_contra hge
        exact hg ⟨by omega, h10⟩
      · exact hsz

theorem scaleInv_stepQuality (enc : Enc) (w h : ℕ) (st : St)
    (hinv : ScaleInv w h st) : ScaleInv w h (stepQuality enc w h st) := hinv

theorem scaleInv_stepDownscale (enc : Enc) (w h : ℕ) (st : St)
    (hinv : ScaleInv w h st) : ScaleInv w h (stepDownscale enc w h st) := by
  obtain ⟨-, -, h3⟩ := hinv
  refine ⟨rfl, rfl, ?_⟩
  intro d hd
  rcases List.mem_cons.mp hd with hdq | hdm
  · subst hdq
    exact ⟨rfl, rfl, rfl, rfl⟩
  · exact h3 d hdm

theorem scaleInv_crashSt (w h : ℕ) (st : St)
    (hinv : ScaleInv w h st) : ScaleInv w h (crashSt w h st) := by
  obtain ⟨-, -, h3⟩ := hinv
  exact ⟨rfl, rfl, h3⟩

theorem scaleInv_initSt (enc : Enc) (w h : ℕ) : ScaleInv w h (initSt enc w h) := by
  refine ⟨?_, ?_, ?_⟩
  · show w = scaledDim w 0
    simp [scaledDim]
  · show h = scaledDim h 0
    simp [scaledDim]
  · intro d hd
    exact absurd hd (by simp [initSt])

theorem loop_scaleInv (enc : Enc) (w h : ℕ) :
    ∀ (fuel : ℕ) (st : St), ScaleInv w h st →
      ScaleInv w h (loop enc w h fuel st).stOf := by
  intro fuel
  induction fuel with
  | zero => intro st hinv; exact hinv
  | succ fuel ih =>
    intro st hinv
    simp only [loop]
    split
    · split
      · split
        · exact scaleInv_crashSt w h _ (scaleInv_stepQuality enc w h st hinv)
        · exact ih _ (scaleInv_stepDownscale enc w h _ (scaleInv_stepQuality enc w h st hinv))
      · exact ih _ (scaleInv_stepQuality enc w h st hinv)
    · exact hinv

theorem traceInv_stepQuality (enc : Enc) (w h : ℕ) (st : St)
    (hinv : TraceInv st) : TraceInv (stepQuality enc w h st) := by
  obtain ⟨last, tail, hrt, hchain, hr, hq⟩ := hinv
  refine ⟨⟨st.quality - 5, w, h, st.rounds⟩, st.rtrace, rfl, ?_, le_refl _,
    Or.inl (le_refl _)⟩
  rw [show (stepQuality enc w h st).rtrace
        = ⟨st.quality - 5, w, h, st.rounds⟩ :: st.rtrace from rfl, hrt]
  refine List.chain'_cons.mpr ⟨⟨?_, ?_⟩, hrt ▸ hchain⟩
  · show Attempt.sf ⟨st.quality - 5, w, h, st.rounds⟩ ≤ Attempt.sf last
    exact pow_le_pow_of_le_one (by norm_num) (by norm_num) hr
  · rcases hq with hle | ⟨h30, -⟩
    · exact Or.inl (show st.quality - 5 ≤ last.q by omega)
    · exact Or.inr (show st.quality - 5 = 25 by omega)

theorem traceInv_stepDownscale (enc : Enc) (w h : ℕ) (st : St)
    (h10 : st.quality ≤ 10) (hinv : TraceInv st) :
    TraceInv (stepDownscale enc w h st) := by
  obtain ⟨last, tail, hrt, hchain, hr, hq⟩ := hinv
  refine ⟨⟨st.quality, nextW w st, nextH h st, st.rounds + 1⟩, st.rtrace, rfl, ?_,
    le_refl _, Or.inr ⟨rfl, h10⟩⟩
  rw [show (stepDownscale enc w h st).rtrace
        = ⟨st.quality, nextW w st, nextH h st, st.rounds + 1⟩ :: st.rtrace from rfl, hrt]
  refine List.chain'_cons.mpr ⟨⟨?_, ?_⟩, hrt ▸ hchain⟩
  · show Attempt.sf ⟨st.quality, nextW w st, nextH h st, st.rounds + 1⟩ ≤ Attempt.sf last
    exact pow_le_pow_of_le_one (by norm_num) (by norm_num) (le_trans hr (Nat.le_succ _))
  · rcases hq with hle | ⟨h30, -⟩
    · exact Or.inl hle
    · exact absurd h10 (by omega)

theorem traceInv_crashSt (w h : ℕ) (st : St)
    (hinv : TraceInv st) : TraceInv (crashSt w h st) := by
  obtain ⟨last, tail, hrt, hchain, hr, hq⟩ := hinv
  exact ⟨last, tail, hrt, hchain, le_trans hr (Nat.le_succ _), hq⟩

theorem traceInv_initSt (enc : Enc) (w h : ℕ) : TraceInv (initSt enc w h) :=
  ⟨⟨85, w, h, 0⟩, [], rfl, List.chain'_singleton _, le_refl 0, Or.inl (le_refl 85)⟩

theorem loop_traceInv (enc : Enc) (w h : ℕ) :
    ∀ (fuel : ℕ) (st : St), TraceInv st → TraceInv (loop enc w h fuel st).stOf := by
  intro fuel
  induction fuel with
  | zero => intro st hinv; exact hinv
  | succ fuel ih =>
    intro st hinv
    simp only [loop]
    split
    · split
      · rename_i hin
        split
        · exact traceInv_crashSt w h _ (traceInv_stepQuality enc w h st hinv)
        · exact ih _
            (traceInv_stepDownscale enc w h _ hin.2 (traceInv_stepQuality enc w h st hinv))
      · exact ih _ (traceInv_stepQuality enc w h st hinv)
    · exact hinv

/-! ## Claim theorems -/

/-- Claim C1 (code bug): the claim requires that for every decodable input
the routine terminates with either an artifact at or under the ceiling or
a `met_ceiling = false` report with the smallest artifact found and does
not crash.  The code has no such report and no downscale bound: with an
encoder that never goes below the ceiling (the spec's Scenario C regime),
the 2×2 input is downscaled until `int(2 * 0.8^4) = 0` and the encode of
the zero-width raster fails instead of returning a best-effort result. -/
theorem compress_unbounded_search_crashes :
    (compress_image encBig 2 2 30).isEncodeError = true ∧
    (compress_image encBig 2 2 30).isOk = false ∧
    (compress_image encBig 2 2 30).stOf.new_width = 0 ∧
    (compress_image encBig 2 2 30).stOf.rounds = 4 := by decide

/-- Claim C2 (confirmed): whenever the compression loop exits normally,
the size of the returned file is at or under the 50,000-byte ceiling (in
fact strictly under it, since the guard keeps looping at exactly 50,000). -/
theorem compress_ok_size_le_ceiling (enc : Enc) (w h fuel : ℕ) (st : St)
    (hok : compress_image enc w h fuel = Outcome.ok st) : st.cursize ≤ 50000 :=
  le_of_lt (loop_ok_exit_size enc w h fuel (initSt enc w h) st
    (Or.inl (by norm_num [initSt])) hok)

/-- Witness for C2: a run with a tiny encoder exits at once and its size
is under the ceiling. -/
theorem compress_ok_size_le_ceiling_witness :
    (initSt enc0 10 10).cursize ≤ 50000 :=
  compress_ok_size_le_ceiling enc0 10 10 5 (initSt enc0 10 10) (by decide)

/-- Counterexample to claim C3 as stated: with an encoder whose quality-85
output is exactly 50,000 bytes — which is ≤ the ceiling — the loop guard
`size >= 50_000` still fires, so a second attempt is made (at quality 80)
instead of returning immediately after the first encode. -/
theorem compress_first_attempt_boundary_cx :
    encA 100 100 85 ≤ 50000 ∧
    (compress_image encA 100 100 10).stOf.attempts.length = 2 ∧
    (compress_image encA 100 100 10).stOf.quality = 80 := by decide

/-- Claim C3 (amended): for every input whose full-resolution encode at
the starting quality 85 is strictly under the 50,000-byte ceiling, the
call returns right after that first encode — one attempt, full
resolution, quality 85, no downscale round — and the caller's
`<= 50_000` check then passes. -/
theorem compress_first_attempt_immediate (enc : Enc) (w h fuel : ℕ)
    (hfuel : 0 < fuel) (hsmall : enc w h 85 < 50000) :
    compress_image enc w h fuel = Outcome.ok (initSt enc w h) ∧
    (initSt enc w h).attempts = [⟨85, w, h, 0⟩] ∧
    (initSt enc w h).new_width = w ∧
    (initSt enc w h).new_height = h ∧
    (initSt enc w h).rounds = 0 ∧
    (initSt enc w h).cursize ≤ 50000 := by
  obtain ⟨k, rfl⟩ : ∃ k, fuel = k + 1 := ⟨fuel - 1, by omega⟩
  have hcond : ¬ (50000 ≤ (initSt enc w h).cursize ∧ 10 ≤ (initSt enc w h).quality) := by
    rintro ⟨h1, -⟩
    have hc : (initSt enc w h).cursize = enc w h 85 := rfl
    omega
  refine ⟨?_, rfl, rfl, rfl, rfl, ?_⟩
  · show loop enc w h (k + 1) (initSt enc w h) = Outcome.ok (initSt enc w h)
    simp only [loop, if_neg hcond]
  · show enc w h 85 ≤ 50000
    omega

/-- Witness for the amended C3 at a concrete tiny-output encoder. -/
theorem compress_first_attempt_immediate_witness :
    0 < 1 ∧ enc0 3 3 85 < 50000 ∧ compress_image enc0 3 3 1 = Outcome.ok (initSt enc0 3 3) :=
  ⟨by decide, by decide,
    (compress_first_attempt_immediate enc0 3 3 1 (by decide) (by decide)).1⟩

/-- Claim C4 (code bug): the claim states downscaling never produces a
zero-width or zero-height target raster, but the code has no dimension
guard: on a 1×1 input whose encodings never go under the ceiling, the
first downscale round computes `int(1 * 0.8) = 0` for both target
dimensions and hands a zero-size raster to the resampler/encoder. -/
theorem compress_downscale_zero_width :
    (compress_image encBig1 1 1 20).isEncodeError = true ∧
    (compress_image encBig1 1 1 20).stOf.new_width = 0 ∧
    (compress_image encBig1 1 1 20).stOf.new_height = 0 := by decide

/-- Claim C5 (confirmed): the downscale compounds against the original
dimensions — after `n` downscale rounds the working dimensions are the
original width and height times `0.8 ^ n`, truncated — every downscale
round resamples with Lanczos, and each round resets the quality to 30. -/
theorem compress_downscale_geometry (enc : Enc) (w h fuel : ℕ) :
    (compress_image enc w h fuel).stOf.scale_factor
        = (4 / 5 : ℚ) ^ (compress_image enc w h fuel).stOf.rounds ∧
    (compress_image enc w h fuel).stOf.new_width
        = pyInt ((w : ℚ) * (4 / 5) ^ (compress_image enc w h fuel).stOf.rounds) ∧
    (compress_image enc w h fuel).stOf.new_height
        = pyInt ((h : ℚ) * (4 / 5) ^ (compress_image enc w h fuel).stOf.rounds) ∧
    ∀ d ∈ (compress_image enc w h fuel).stOf.downs,
      d.filt = ResampleFilter.lanczos ∧ d.qAfter = 30 ∧
      d.nw = pyInt ((w : ℚ) * (4 / 5) ^ d.n) ∧
      d.nh = pyInt ((h : ℚ) * (4 / 5) ^ d.n) := by
  obtain ⟨h1, h2, h3⟩ := loop_scaleInv enc w h fuel (initSt enc w h) (scaleInv_initSt enc w h)
  refine ⟨rfl, ?_, ?_, ?_⟩
  · rw [← scaledDim_eq_floor]
    exact h1
  · rw [← scaledDim_eq_floor]
    exact h2
  · intro d hd
    obtain ⟨hf, hq, hnw, hnh⟩ := h3 d hd
    exact ⟨hf, hq, by rw [← scaledDim_eq_floor]; exact hnw,
      by rw [← scaledDim_eq_floor]; exact hnh⟩

/-- Witness for C5 on a run with two downscale rounds: its first round
used Lanczos, reset the quality to 30, and scaled 100 to int(100·0.8)=80. -/
theorem compress_downscale_geometry_witness :
    dEx.filt = ResampleFilter.lanczos ∧ dEx.qAfter = 30 ∧
    dEx.nw = pyInt ((100 : ℚ) * (4 / 5) ^ dEx.n) :=
  ⟨((compress_downscale_geometry encC 100 100 30).2.2.2 dEx (by decide)).1,
   ((compress_downscale_geometry encC 100 100 30).2.2.2 dEx (by decide)).2.1,
   ((compress_downscale_geometry encC 100 100 30).2.2.2 dEx (by decide)).2.2.1⟩

/-- Counterexample to claim C6 as stated: in the run of `encC` on a
100×100 raster, attempt 16 is the first downscale round's save at quality
10 and attempt 17 is the following full-resolution save at quality 25, so
the quality parameter increases between consecutive attempts and the
claimed pairwise monotonicity fails. -/
theorem compress_quality_not_monotone_cx :
    ¬ List.Chain' AttemptMonotone ((compress_image encC 100 100 30).stOf.attempts) := by
  intro hchain
  have hpair := List.chain'_iff_get.mp hchain 16 (by decide)
  revert hpair
  decide

/-- Claim C6 (amended): across successive attempts within one call the
scale-factor variable is non-increasing, and the quality is non-increasing
except immediately after a downscale round, where it is reset to 30 so
that the next encode runs at quality 25. -/
theorem compress_attempts_lex_decrease (enc : Enc) (w h fuel : ℕ) :
    List.Chain' AttemptStep ((compress_image enc w h fuel).stOf.attempts) := by
  obtain ⟨-, -, -, hchain, -, -⟩ :=
    loop_traceInv enc w h fuel (initSt enc w h) (traceInv_initSt enc w h)
  exact List.chain'_reverse.mpr hchain

/-- Claim C7 (confirmed): decrypt is a left inverse of encrypt on strings
of length at least 4, and both transforms are the identity on shorter
strings. -/
theorem pp_roundtrip_spec :
    (∀ s : List Char, 4 ≤ s.length → decrypt_pp_number (encrypt_pp_number s) = s) ∧
    (∀ s : List Char, s.length < 4 →
      encrypt_pp_number s = s ∧ decrypt_pp_number s = s) :=
  ⟨fun s _ => pp_roundtrip s, fun s h => pp_short_id s h⟩

/-- Witness for C7 at a length-7 and a length-3 string. -/
theorem pp_roundtrip_spec_witness :
    decrypt_pp_number (encrypt_pp_number ['A', 'B', '1', '2', '3', 'C', 'D'])
      = ['A', 'B', '1', '2', '3', 'C', 'D'] ∧
    encrypt_pp_number ['A', 'B', '1'] = ['A', 'B', '1'] :=
  ⟨pp_roundtrip_spec.1 _ (by decide), (pp_roundtrip_spec.2 ['A', 'B', '1'] (by decide)).1⟩

/-- Claim C8 (confirmed): the storage filename is the sanitised name with
the fixed `.jpg` extension appended; every character the sanitiser keeps
is in `[A-Za-z0-9_-]`; every space of the input becomes an underscore of
the output (the underscore count of the output is the space count plus
the underscore count of the input, and no space survives). -/
theorem sanitize_filename_spec (name : List Char) :
    tab1_filename name = sanitize_filename name ++ ['.', 'j', 'p', 'g'] ∧
    (∀ c ∈ sanitize_filename name, isAllowedChar c = true) ∧
    (sanitize_filename name).count '_' = name.count ' ' + name.count '_' ∧
    ' ' ∉ sanitize_filename name :=
  ⟨rfl, sanitize_allowed name, sanitize_underscore_count name, sanitize_no_space name⟩

/-- Witness for C8 at the sample name with a space and a bang. -/
theorem sanitize_filename_spec_witness :
    isAllowedChar '_' = true ∧
    (sanitize_filename nameEx).count '_' = nameEx.count ' ' + nameEx.count '_' :=
  ⟨(sanitize_filename_spec nameEx).2.1 '_' (by decide),
   (sanitize_filename_spec nameEx).2.2.1⟩

/-- Claim C9 (confirmed): `encrypt_pp_number` and `decrypt_pp_number` are
extensionally equal — both swap the first two and last two characters
around an unchanged middle — and hence each is an involution. -/
theorem pp_transform_equiv_involution :
    (∀ s : List Char, encrypt_pp_number s = decrypt_pp_number s) ∧
    (∀ s : List Char, encrypt_pp_number (encrypt_pp_number s) = s) ∧
    (∀ s : List Char, decrypt_pp_number (decrypt_pp_number s) = s) :=
  ⟨fun s => pp_swap_extensional s, fun s => pp_involution s,
   fun s => by rw [← pp_swap_extensional s]; exact pp_roundtrip s⟩

/-- Claim C10 (confirmed): the upload handler uploads the compressed
artifact exactly when its byte size is at most 50,000; above 50,000 it
shows the error instead of uploading; and every artifact the compression
loop actually returns passes that check. -/
theorem upload_iff_size_le_ceiling :
    (∀ size : ℕ, tab1_upload_decision size = UploadAction.uploaded ↔ size ≤ 50000) ∧
    (∀ size : ℕ, 50000 < size → tab1_upload_decision size = UploadAction.errorShown) ∧
    (∀ (enc : Enc) (w h fuel : ℕ) (st : St),
      compress_image enc w h fuel = Outcome.ok st →
      tab1_upload_decision st.cursize = UploadAction.uploaded) := by
  refine ⟨?_, ?_, ?_⟩
  · intro size
    constructor
    · intro hup
      by_contra hgt
      rw [tab1_upload_decision, if_neg (by omega)] at hup
      exact absurd hup (by simp)
    · intro hle
      rw [tab1_upload_decision, if_pos hle]
  · intro size hgt
    rw [tab1_upload_decision, if_neg (by omega)]
  · intro enc w h fuel st hok
    have hsz := loop_ok_exit_size enc w h fuel (initSt enc w h) st
      (Or.inl (by norm_num [initSt])) hok
    rw [tab1_upload_decision, if_pos (by omega)]

/-- Witness for C10 at sizes on both sides of the ceiling. -/
theorem upload_iff_size_le_ceiling_witness :
    tab1_upload_decision 60000 = UploadAction.errorShown ∧
    tab1_upload_decision 1000 = UploadAction.uploaded :=
  ⟨upload_iff_size_le_ceiling.2.1 60000 (by decide),
   (upload_iff_size_le_ceiling.1 1000).mpr (by decide)⟩

end FormC
